import Mathlib

/-!
Shallow embedding of the waveform-draw core (packages/core):
`WaveformDocument.ts` (domain model, run-length codec, mutation helpers),
`services/Parser.ts` (`WaveformParser.parse`, `WaveformParser.validate`) and
`services/Serializer.ts` (`WaveformSerializer.serialize`).

Conventions of the embedding:
* JS strings are `List Char`; `text.split('\n')` is `splitOnNl`.
* JS `Date` values and `generateId()` results are modelled as `Nat`
  parameters (`now`, `id`): the code treats them as opaque.
* A JS out-of-bounds string index (`stateString[0]` on the empty string)
  yields `undefined`; the `value` field of a run is therefore
  `Option Char`, with `none` standing for `undefined`.  A thrown
  `TypeError` (calling `.repeat` on `undefined`) is modelled by `Option`
  results (`none` = the call throws).
* Regular expressions are unrolled by hand.  All of them
  (`^@(\w+):\s*(.+)$`, `^(\d+)\s+"([^"]+)"$`,
  `^([A-Za-z_][\w]*)\s*:\s*([01XZ]+)(?:\s+"([^"]+)")?$`) are
  backtracking-free on the trimmed lines they are applied to, because each
  greedy class is disjoint from the character that must follow it, so
  maximal munch (`takeWhile`/`dropWhile`) is exact.  Whitespace classes are
  modelled over their ASCII range.
-/

namespace WaveformDraw

/-- JS whitespace (`\s`, `trim`), restricted to the ASCII range. -/
def isWS (c : Char) : Bool :=
  c == ' ' || c == '\t' || c == '\n' || c == '\r' || c == '\x0b' || c == '\x0c'

/-- JS `\w`, i.e. `[A-Za-z0-9_]`. -/
def isWordChar (c : Char) : Bool := c.isAlphanum || c == '_'

/-- The signal state characters `[01XZ]` (uppercase only, as in the regex). -/
def isStateChar (c : Char) : Bool := c == '0' || c == '1' || c == 'X' || c == 'Z'

/-- First character of a signal name: `[A-Za-z_]`. -/
def isNameStart (c : Char) : Bool := c.isAlpha || c == '_'

/-- `text.split('\n')` : one more field than separators, empty fields kept. -/
def splitOnNl : List Char → List (List Char)
  | [] => [[]]
  | c :: rest =>
    if c = '\n' then [] :: splitOnNl rest
    else
      match splitOnNl rest with
      | [] => [[c]]
      | l :: ls => (c :: l) :: ls

/-- `lines.join('\n')`. -/
def joinNl : List (List Char) → List Char
  | [] => []
  | [l] => l
  | l :: ls => l ++ '\n' :: joinNl ls

/-- Strip trailing whitespace. -/
def rstrip (l : List Char) : List Char := (l.reverse.dropWhile isWS).reverse

/-- JS `String.prototype.trim()`. -/
def trim (l : List Char) : List Char := rstrip (l.dropWhile isWS)

/-- One run of the run-length encoding (`SignalState` in `types.ts`).
`value` is `Option Char` because the encoder reads `stateString[0]`,
which is `undefined` on empty input. -/
structure SignalState where
  value : Option Char
  duration : Nat
deriving DecidableEq, Repr

/-- `Signal` from `types.ts` (the `style` hints are opaque and unused by the
core services, so they are omitted). -/
structure Signal where
  id : Nat
  name : List Char
  states : List SignalState
  description : Option (List Char) := none
deriving DecidableEq, Repr

/-- `TimeMarker` from `types.ts`. -/
structure TimeMarker where
  position : Nat
  label : List Char
  color : Option (List Char) := none
deriving DecidableEq, Repr

/-- `TimeConfiguration` from `types.ts`. -/
structure TimeConfiguration where
  totalSteps : Nat
  stepWidth : Nat
  unit : Option (List Char) := none
  markers : Option (List TimeMarker) := none
  showGrid : Option Bool := none
deriving DecidableEq, Repr

/-- `DocumentMetadata` from `types.ts`; timestamps are opaque `Nat`s. -/
structure DocumentMetadata where
  title : List Char
  description : Option (List Char) := none
  author : Option (List Char) := none
  created : Nat
  modified : Nat
  tags : Option (List (List Char)) := none
deriving DecidableEq, Repr

/-- `WaveformDocument` from `types.ts`. -/
structure WaveformDocument where
  id : Nat
  metadata : DocumentMetadata
  signals : List Signal
  timeConfig : TimeConfiguration
  version : List Char
deriving DecidableEq, Repr

/-! ## Run-length codec (`WaveformDocument.ts`) -/

/-- Loop body of `parseSignalStates`: `currentValue`/`duration` accumulate
while the value repeats, a run is flushed on change, and the final run is
always pushed. -/
def parseSignalStatesAux (cur : Char) (dur : Nat) : List Char → List SignalState
  | [] => [⟨some cur, dur⟩]
  | c :: rest =>
    if c = cur then parseSignalStatesAux cur (dur + 1) rest
    else ⟨some cur, dur⟩ :: parseSignalStatesAux c 1 rest

/-- `parseSignalStates(stateString)`.  On the empty string the JS code reads
`stateString[0]` (= `undefined`), runs zero loop iterations, and pushes
`{ value: undefined, duration: 1 }`. -/
def parseSignalStates : List Char → List SignalState
  | [] => [⟨none, 1⟩]
  | c :: rest => parseSignalStatesAux c 1 rest

/-- `serializeSignalStates(states)`:
`states.map(st => st.value.repeat(st.duration)).join('')`.  A `none`
(`undefined`) value makes the `.repeat` call throw, modelled by `none`. -/
def serializeSignalStates : List SignalState → Option (List Char)
  | [] => some []
  | st :: rest =>
    match st.value, serializeSignalStates rest with
    | some v, some r => some (List.replicate st.duration v ++ r)
    | _, _ => none

/-! ## Regex matchers (`Parser.ts`) -/

/-- `line.match(/^@(\w+):\s*(.+)$/)`, returning the two captures.
`.` does not match `\n`/`\r`, hence the final guard. -/
def directiveMatch (l : List Char) : Option (List Char × List Char) :=
  match l with
  | a :: rest =>
    if a = '@' then
      if (rest.takeWhile isWordChar).isEmpty then none
      else
        match rest.dropWhile isWordChar with
        | b :: r2 =>
          if b = ':' then
            if (r2.dropWhile isWS).isEmpty
                || (r2.dropWhile isWS).any (fun c => c == '\n' || c == '\r') then none
            else some (rest.takeWhile isWordChar, r2.dropWhile isWS)
          else none
        | [] => none
    else none
  | [] => none

/-- The trailing-description part `\s+"([^"]+)"$` of the signal regex. -/
def descMatch (l : List Char) : Option (List Char) :=
  if (l.takeWhile isWS).isEmpty then none
  else
    match l.dropWhile isWS with
    | q :: r2 =>
      if q = '\"' then
        match r2.dropWhile (fun c => c != '\"') with
        | [q2] =>
          if q2 = '\"' then
            if (r2.takeWhile (fun c => c != '\"')).isEmpty then none
            else some (r2.takeWhile (fun c => c != '\"'))
          else none
        | _ => none
      else none
    | [] => none

/-- `line.match(/^([A-Za-z_][\w]*)\s*:\s*([01XZ]+)(?:\s+"([^"]+)")?$/)`:
captures (name, states, optional description). -/
def signalLineMatch (l : List Char) : Option (List Char × List Char × Option (List Char)) :=
  match l with
  | [] => none
  | c :: rest =>
    if isNameStart c then
      match (rest.dropWhile isWordChar).dropWhile isWS with
      | b :: r3 =>
        if b = ':' then
          let r4 := r3.dropWhile isWS
          let states := r4.takeWhile isStateChar
          let r5 := r4.dropWhile isStateChar
          if states.isEmpty then none
          else if r5.isEmpty then some (c :: rest.takeWhile isWordChar, states, none)
          else
            match descMatch r5 with
            | some d => some (c :: rest.takeWhile isWordChar, states, some d)
            | none => none
        else none
      | [] => none
    else none

/-- The unanchored prefix regex `/^([A-Za-z_][\w]*)\s*:\s*([01XZ]+)/` used in
the length-consistency pass of `validate` (no `$`, no description). -/
def signalPrefixMatch (l : List Char) : Option (List Char × List Char) :=
  match l with
  | [] => none
  | c :: rest =>
    if isNameStart c then
      match (rest.dropWhile isWordChar).dropWhile isWS with
      | b :: r3 =>
        if b = ':' then
          let states := (r3.dropWhile isWS).takeWhile isStateChar
          if states.isEmpty then none else some (c :: rest.takeWhile isWordChar, states)
        else none
      | [] => none
    else none

/-- Decimal digit characters of a `Nat`, as produced by JS template-string
interpolation `${n}` of a non-negative integer. -/
def digitToChar (k : Nat) : Char :=
  match k with
  | 0 => '0' | 1 => '1' | 2 => '2' | 3 => '3' | 4 => '4'
  | 5 => '5' | 6 => '6' | 7 => '7' | 8 => '8' | 9 => '9'
  | _ => '*'

/-- Decimal rendering of a `Nat` (JS `${number}` for integers). -/
def natToChars (n : Nat) : List Char :=
  if _h : n < 10 then [digitToChar n]
  else natToChars (n / 10) ++ [digitToChar (n % 10)]
decreasing_by exact Nat.div_lt_self (by omega) (by omega)

/-- `value.match(/^(\d+)\s+"([^"]+)"$/)` for the `@marker` directive,
with `parseInt(pos, 10)` applied to the digit capture. -/
def markerMatch (v : List Char) : Option (Nat × List Char) :=
  if (v.takeWhile Char.isDigit).isEmpty then none
  else
    match descMatch (v.dropWhile Char.isDigit) with
    | some s =>
      some ((v.takeWhile Char.isDigit).foldl (fun n c => n * 10 + (c.toNat - 48)) 0, s)
    | none => none

/-! ## Document factories and mutation helpers (`WaveformDocument.ts`) -/

/-- `createDocument(title = 'Untitled Waveform')`; the fresh `generateId()`
and `new Date()` are the explicit `id`/`now` parameters. -/
def createDocument (now id : Nat) : WaveformDocument :=
  { id := id
    version := "1.0.0".data
    metadata :=
      { title := "Untitled Waveform".data
        created := now
        modified := now }
    signals := []
    timeConfig := { totalSteps := 8, stepWidth := 40, showGrid := some true } }

/-- `createSignal(name, states)`.  The JS guard `if (states)` is string
truthiness: an empty state string leaves `states` as `[]`. -/
def createSignal (id : Nat) (name states : List Char) : Signal :=
  { id := id
    name := name
    states := if states.isEmpty then [] else parseSignalStates states }

/-- The parser's `if (description) signal.description = description`
(string truthiness again). -/
def attachDescription (s : Signal) (dsc : Option (List Char)) : Signal :=
  match dsc with
  | some d => if d.isEmpty then s else { s with description := some d }
  | none => s

/-- `Partial<DocumentMetadata>`: `some` means the key is present in the
updates object (a present-but-`undefined` optional key is `some none`). -/
structure MetadataUpdates where
  title : Option (List Char) := none
  description : Option (Option (List Char)) := none
  author : Option (Option (List Char)) := none
  created : Option Nat := none
  modified : Option Nat := none
  tags : Option (Option (List (List Char))) := none
deriving DecidableEq, Repr

/-- `Partial<Signal>`. -/
structure SignalUpdates where
  id : Option Nat := none
  name : Option (List Char) := none
  states : Option (List SignalState) := none
  description : Option (Option (List Char)) := none
deriving DecidableEq, Repr

/-- `Partial<TimeConfiguration>`. -/
structure TimeConfigUpdates where
  totalSteps : Option Nat := none
  stepWidth : Option Nat := none
  unit : Option (Option (List Char)) := none
  markers : Option (Option (List TimeMarker)) := none
  showGrid : Option (Option Bool) := none
deriving DecidableEq, Repr

/-- JS object spread `{...m, ...u}` over `DocumentMetadata`. -/
def spreadMetadata (m : DocumentMetadata) (u : MetadataUpdates) : DocumentMetadata :=
  { title := u.title.getD m.title
    description := match u.description with | some d => d | none => m.description
    author := match u.author with | some a => a | none => m.author
    created := u.created.getD m.created
    modified := u.modified.getD m.modified
    tags := match u.tags with | some t => t | none => m.tags }

/-- JS object spread `{...s, ...u}` over `Signal`. -/
def spreadSignal (s : Signal) (u : SignalUpdates) : Signal :=
  { id := u.id.getD s.id
    name := u.name.getD s.name
    states := u.states.getD s.states
    description := match u.description with | some d => d | none => s.description }

/-- JS object spread `{...tc, ...u}` over `TimeConfiguration`. -/
def spreadTimeConfig (tc : TimeConfiguration) (u : TimeConfigUpdates) : TimeConfiguration :=
  { totalSteps := u.totalSteps.getD tc.totalSteps
    stepWidth := u.stepWidth.getD tc.stepWidth
    unit := match u.unit with | some x => x | none => tc.unit
    markers := match u.markers with | some x => x | none => tc.markers
    showGrid := match u.showGrid with | some x => x | none => tc.showGrid }

/-- `addSignal(doc, signal)`; `now` is the `new Date()` for `modified`. -/
def addSignal (doc : WaveformDocument) (signal : Signal) (now : Nat) : WaveformDocument :=
  { doc with
    signals := doc.signals ++ [signal]
    metadata := { doc.metadata with modified := now } }

/-- `updateSignal(doc, signalId, updates)`. -/
def updateSignal (doc : WaveformDocument) (signalId : Nat) (updates : SignalUpdates)
    (now : Nat) : WaveformDocument :=
  { doc with
    signals := doc.signals.map (fun s => if s.id = signalId then spreadSignal s updates else s)
    metadata := { doc.metadata with modified := now } }

/-- `removeSignal(doc, signalId)`. -/
def removeSignal (doc : WaveformDocument) (signalId : Nat) (now : Nat) : WaveformDocument :=
  { doc with
    signals := doc.signals.filter (fun s => s.id ≠ signalId)
    metadata := { doc.metadata with modified := now } }

/-- `updateMetadata(doc, updates)`: `{...doc.metadata, ...updates,
modified: new Date()}` — the literal `modified` key wins over the spread. -/
def updateMetadata (doc : WaveformDocument) (updates : MetadataUpdates)
    (now : Nat) : WaveformDocument :=
  { doc with metadata := { spreadMetadata doc.metadata updates with modified := now } }

/-- `updateTimeConfig(doc, updates)`. -/
def updateTimeConfig (doc : WaveformDocument) (updates : TimeConfigUpdates)
    (now : Nat) : WaveformDocument :=
  { doc with
    timeConfig := spreadTimeConfig doc.timeConfig updates
    metadata := { doc.metadata with modified := now } }

/-- `calculateTotalSteps(doc)` (utility in `WaveformDocument.ts`). -/
def signalLength (s : Signal) : Nat :=
  s.states.foldl (fun sum st => sum + st.duration) 0

/-- `Math.max(...doc.signals.map(lengths))` as computed inside `parse`
(only evaluated when the signal list is non-empty). -/
def maxSignalLength : List Signal → Nat
  | [] => 0
  | s :: rest => rest.foldl (fun m s2 => Nat.max m (signalLength s2)) (signalLength s)

/-! ## Parser (`Parser.ts`, `WaveformParser.parse`) -/

/-- The accumulator state of `parse`'s line loop: `currentTitle`,
`currentUnit`, `markers`, and `doc.signals` being pushed to; `nextId`
models the `generateId()` counter. -/
structure ParseAcc where
  title : List Char
  unit : Option (List Char)
  markers : List TimeMarker
  signals : List Signal
  nextId : Nat
deriving DecidableEq, Repr

/-- The directive `switch` inside `parse` (cases `title`, `unit`,
`marker`; everything else falls through silently). -/
def handleDirective (acc : ParseAcc) (line : List Char) : ParseAcc :=
  match directiveMatch line with
  | none => acc
  | some (name, value) =>
    if name = "title".data then { acc with title := value }
    else if name = "unit".data then { acc with unit := some value }
    else if name = "marker".data then
      match markerMatch value with
      | some (pos, label) => { acc with markers := acc.markers ++ [⟨pos, label, none⟩] }
      | none => acc
    else acc

/-- One iteration of `parse`'s loop over `lines[i].trim()`. -/
def processLine (acc : ParseAcc) (raw : List Char) : ParseAcc :=
  let line := trim raw
  if line.isEmpty then acc
  else if line.head? = some '#' then acc
  else if line.head? = some '@' then handleDirective acc line
  else
    match signalLineMatch line with
    | some (name, states, dsc) =>
      { acc with
        signals := acc.signals ++ [attachDescription (createSignal acc.nextId name states) dsc]
        nextId := acc.nextId + 1 }
    | none => acc

/-- Initial accumulator of `parse` (the document id is 0, so signal ids
start at 1). -/
def initAcc : ParseAcc :=
  { title := "Untitled Waveform".data, unit := none, markers := [], signals := [], nextId := 1 }

/-- The line loop of `parse` over `text.split('\n')`. -/
def parseAcc (text : List Char) : ParseAcc :=
  (splitOnNl text).foldl processLine initAcc

/-- `if (currentUnit) doc.timeConfig.unit = currentUnit` — string
truthiness of the accumulated unit. -/
def parsedUnit : Option (List Char) → Option (List Char)
  | some u => if u.isEmpty then none else some u
  | none => none

/-- `if (markers.length > 0) doc.timeConfig.markers = markers`. -/
def parsedMarkers (ms : List TimeMarker) : Option (List TimeMarker) :=
  if ms.isEmpty then none else some ms

/-- The tail of `parse`: write the accumulated metadata into the document
created by `createDocument()` and recompute `totalSteps` only when at
least one signal was parsed (otherwise the default 8 survives). -/
def buildDoc (acc : ParseAcc) (now : Nat) : WaveformDocument :=
  let doc0 := createDocument now 0
  let doc1 :=
    { doc0 with
      metadata := { doc0.metadata with title := acc.title }
      signals := acc.signals
      timeConfig :=
        { doc0.timeConfig with
          unit := parsedUnit acc.unit
          markers := parsedMarkers acc.markers } }
  if acc.signals.length > 0 then
    { doc1 with timeConfig := { doc1.timeConfig with totalSteps := maxSignalLength acc.signals } }
  else doc1

/-- `WaveformParser.parse(text)`; `now` is the parse-time `new Date()`. -/
def parse (text : List Char) (now : Nat) : WaveformDocument :=
  buildDoc (parseAcc text) now

/-! ## Validator (`Parser.ts`, `WaveformParser.validate`) -/

/-- `ValidationError` from `types.ts` (`column` is never set by this code). -/
structure ValidationError where
  line : Nat
  message : String
  code : String
deriving DecidableEq, Repr

/-- `ValidationWarning` from `types.ts`. -/
structure ValidationWarning where
  line : Nat
  message : String
  code : String
deriving DecidableEq, Repr

/-- `ValidationResult` from `types.ts`. -/
structure ValidationResult where
  valid : Bool
  errors : List ValidationError
  warnings : List ValidationWarning
deriving DecidableEq, Repr

/-- The per-line body of `validate`'s first loop: errors and warnings
contributed by line index `i` (0-based; reported 1-based). -/
def validateLine (i : Nat) (raw : List Char) : List ValidationError × List ValidationWarning :=
  let line := trim raw
  let lineNumber := i + 1
  if line.isEmpty then ([], [])
  else if line.head? = some '#' then ([], [])
  else if line.head? = some '@' then
    match directiveMatch line with
    | some _ => ([], [])
    | none =>
      ([{ line := lineNumber, message := "Invalid directive syntax",
          code := "INVALID_DIRECTIVE" }], [])
  else
    match signalLineMatch line with
    | none =>
      ([{ line := lineNumber,
          message := "Invalid signal syntax. Expected format: NAME: 01010101",
          code := "INVALID_SIGNAL" }], [])
    | some (name, states, _) =>
      let errs :=
        if !(!states.isEmpty && states.all isStateChar) then
          [{ line := lineNumber,
             message := "Signal states must only contain 0, 1, X, or Z",
             code := "INVALID_STATE" : ValidationError }]
        else []
      let warns :=
        if name.length > 32 then
          [{ line := lineNumber,
             message := "Signal name is very long (>32 characters)",
             code := "LONG_NAME" : ValidationWarning }]
        else []
      (errs, warns)

/-- `signalLengths.set(name, states.length)` on a `Map`: overwrite in place
if the key exists, else append. -/
def mapSet (m : List (List Char × Nat)) (k : List Char) (v : Nat) : List (List Char × Nat) :=
  if m.any (fun p => p.1 = k) then m.map (fun p => if p.1 = k then (k, v) else p)
  else m ++ [(k, v)]

/-- The second loop of `validate`: last-seen state-length per signal name,
using the unanchored prefix regex. -/
def collectLengths (lines : List (List Char)) : List (List Char × Nat) :=
  lines.foldl
    (fun m raw =>
      let line := trim raw
      if line.isEmpty then m
      else if line.head? = some '#' then m
      else if line.head? = some '@' then m
      else
        match signalPrefixMatch line with
        | some (name, states) => mapSet m name states.length
        | none => m)
    []

/-- The `INCONSISTENT_LENGTHS` warning computed from the length map. -/
def lengthWarnings (m : List (List Char × Nat)) : List ValidationWarning :=
  match m.map (fun p => p.2) with
  | [] => []
  | x :: xs =>
    let mn := xs.foldl Nat.min x
    let mx := xs.foldl Nat.max x
    if mn ≠ mx then
      [{ line := 0,
         message := "Signal lengths are inconsistent (" ++ toString mn ++ " to "
           ++ toString mx ++ " steps)",
         code := "INCONSISTENT_LENGTHS" }]
    else []

/-- `WaveformParser.validate(text)`. -/
def validate (text : List Char) : ValidationResult :=
  let lines := splitOnNl text
  let acc := lines.enum.foldl
    (fun (acc : List ValidationError × List ValidationWarning) p =>
      let r := validateLine p.1 p.2
      (acc.1 ++ r.1, acc.2 ++ r.2))
    ([], [])
  let warns := acc.2 ++ lengthWarnings (collectLengths lines)
  { valid := acc.1.isEmpty, errors := acc.1, warnings := warns }

/-! ## Serializer (`Serializer.ts`) -/

/-- The optional trailing ` "description"` of a serialized signal line:
appended only when the description is truthy (present and non-empty). -/
def descPart : Option (List Char) → List Char
  | some d => if d.isEmpty then [] else ' ' :: '\"' :: (d ++ ['\"'])
  | none => []

/-- `serializeSignal(signal)`: `` `${name}: ${states}` `` plus the optional
description part; `none` if `serializeSignalStates` throws. -/
def serializeSignal (s : Signal) : Option (List Char) :=
  (serializeSignalStates s.states).map fun states =>
    s.name ++ ':' :: ' ' :: (states ++ descPart s.description)

/-- The metadata/marker lines emitted by `serialize` (title omitted when
falsy or equal to the default). -/
def serializeMetaLines (doc : WaveformDocument) : List (List Char) :=
  (if doc.metadata.title ≠ [] ∧ doc.metadata.title ≠ "Untitled Waveform".data then
     ["@title: ".data ++ doc.metadata.title]
   else []) ++
  (match doc.metadata.description with
   | some d => if d.isEmpty then [] else ["@description: ".data ++ d]
   | none => []) ++
  (match doc.timeConfig.unit with
   | some u => if u.isEmpty then [] else ["@unit: ".data ++ u]
   | none => []) ++
  (match doc.timeConfig.markers with
   | some ms =>
     ms.map fun mk => "@marker: ".data ++ natToChars mk.position ++ ' ' :: '\"' ::
       (mk.label ++ ['\"'])
   | none => [])

/-- `WaveformSerializer.serialize(doc)`: metadata directives, marker lines,
a blank separator when any metadata was emitted, then one line per signal,
joined with `'\n'`. -/
def serialize (doc : WaveformDocument) : Option (List Char) :=
  (doc.signals.mapM serializeSignal).map fun sigLines =>
    joinNl ((if (serializeMetaLines doc).isEmpty then serializeMetaLines doc
             else serializeMetaLines doc ++ [[]]) ++ sigLines)

/-! ## Derived notions used to state the properties -/

/-- A well-formed signal name, as matched by `[A-Za-z_][\w]*`. -/
def goodNameB (n : List Char) : Bool :=
  match n with
  | [] => false
  | c :: cs => isNameStart c && cs.all isWordChar

/-- The observable content of a signal for the text round-trip: its name,
its decoded state string, and its description (ids are fresh on every
parse and are deliberately not compared). -/
def sigView (s : Signal) : List Char × Option (List Char) × Option (List Char) :=
  (s.name, serializeSignalStates s.states, s.description)

/-- The description actually attached by the parser (string truthiness:
an empty capture would be dropped). -/
def descOpt : Option (List Char) → Option (List Char)
  | some d => if d.isEmpty then none else some d
  | none => none

/-- The signal view contributed by a single raw line of input. -/
def lineView (raw : List Char) : List (List Char × Option (List Char) × Option (List Char)) :=
  let line := trim raw
  if line.isEmpty then []
  else if line.head? = some '#' then []
  else if line.head? = some '@' then []
  else
    match signalLineMatch line with
    | some (name, states, dsc) =>
      [(name, serializeSignalStates (parseSignalStates states), descOpt dsc)]
    | none => []

/-- Structural facts that hold of every signal the parser constructs:
a grammar-conformant name, states decoding to a non-empty `[01XZ]` string,
and a description that is non-empty and free of `"` and newline. -/
def ParsedSig (s : Signal) : Prop :=
  goodNameB s.name = true ∧
  (∃ ds : List Char, ds ≠ [] ∧ ds.all isStateChar = true ∧ s.states = parseSignalStates ds) ∧
  (∀ d, s.description = some d → d ≠ [] ∧ ∀ c ∈ d, c ≠ '\"' ∧ c ≠ '\n')

/-- Invariant of the parser's accumulator: the title, unit and marker
labels contain no newline (they are substrings of single input lines), and
every collected signal satisfies `ParsedSig`. -/
def GoodAcc (acc : ParseAcc) : Prop :=
  ('\n' : Char) ∉ acc.title ∧
  (∀ u, acc.unit = some u → ('\n' : Char) ∉ u) ∧
  (∀ mk ∈ acc.markers, ('\n' : Char) ∉ mk.label) ∧
  (∀ s ∈ acc.signals, ParsedSig s)

/-- A line that the grammar rejects: non-blank, not a comment, and either a
directive-shaped line that fails the directive regex (or a `@marker`
directive whose value fails the marker regex), or a non-directive line
that fails the signal regex. -/
def malformedLine (l : List Char) : Bool :=
  let t := trim l
  !t.isEmpty && !(t.head? == some '#') &&
    (((t.head? == some '@') &&
        (match directiveMatch t with
         | none => true
         | some (name, value) => name == "marker".data && (markerMatch value).isNone)) ||
      (!(t.head? == some '@') && (signalLineMatch t).isNone))

/-! ## Basic lemmas about splitting, trimming and the codec -/

lemma splitOnNl_ne_nil (text : List Char) : splitOnNl text ≠ [] := by
  cases text with
  | nil => simp [splitOnNl]
  | cons c rest =>
    rw [splitOnNl]
    split
    · simp
    · split <;> simp

lemma mem_splitOnNl_no_nl : ∀ (text l : List Char), l ∈ splitOnNl text → ('\n' : Char) ∉ l := by
  intro text
  induction text with
  | nil =>
    intro l hl
    simp [splitOnNl] at hl
    simp [hl]
  | cons c rest ih =>
    intro l hl
    rw [splitOnNl] at hl
    by_cases hc : c = '\n'
    · rw [if_pos hc] at hl
      rcases List.mem_cons.1 hl with h | h
      · simp [h]
      · exact ih l h
    · rw [if_neg hc] at hl
      rcases hsplit : splitOnNl rest with _ | ⟨l0, ls⟩
      · exact absurd hsplit (splitOnNl_ne_nil rest)
      · rw [hsplit] at hl
        rcases List.mem_cons.1 hl with h | h
        · subst h
          intro hmem
          rcases List.mem_cons.1 hmem with h | h
          · exact hc h.symm
          · exact ih l0 (by rw [hsplit]; exact List.mem_cons_self _ _) h
        · exact ih l (by rw [hsplit]; exact List.mem_cons_of_mem _ h)

lemma splitOnNl_append (a b : List Char) :
    splitOnNl (a ++ '\n' :: b) = splitOnNl a ++ splitOnNl b := by
  induction a with
  | nil => simp [splitOnNl]
  | cons c a ih =>
    show splitOnNl (c :: (a ++ '\n' :: b)) = splitOnNl (c :: a) ++ splitOnNl b
    rw [splitOnNl, splitOnNl]
    by_cases hc : c = '\n'
    · rw [if_pos hc, if_pos hc, ih]
      rfl
    · rw [if_neg hc, if_neg hc, ih]
      rcases hsplit : splitOnNl a with _ | ⟨l0, ls⟩
      · exact absurd hsplit (splitOnNl_ne_nil a)
      · rfl

lemma splitOnNl_of_no_nl (l : List Char) (h : ('\n' : Char) ∉ l) : splitOnNl l = [l] := by
  induction l with
  | nil => rfl
  | cons c rest ih =>
    rw [splitOnNl, if_neg (by intro hc; exact h (hc ▸ List.mem_cons_self _ _)),
      ih (fun hm => h (List.mem_cons_of_mem _ hm))]

lemma mem_rstrip {c : Char} {l : List Char} (h : c ∈ rstrip l) : c ∈ l := by
  unfold rstrip at h
  have h1 : c ∈ l.reverse.dropWhile isWS := List.mem_reverse.1 h
  exact List.mem_reverse.1 ((List.dropWhile_sublist isWS).subset h1)

lemma mem_trim {c : Char} {l : List Char} (h : c ∈ trim l) : c ∈ l :=
  (List.dropWhile_sublist isWS).subset (mem_rstrip h)

lemma serialize_parseSignalStatesAux :
    ∀ (rest : List Char) (cur : Char) (dur : Nat),
      serializeSignalStates (parseSignalStatesAux cur dur rest) =
        some (List.replicate dur cur ++ rest) := by
  intro rest
  induction rest with
  | nil =>
    intro cur dur
    simp [parseSignalStatesAux, serializeSignalStates]
  | cons c rest ih =>
    intro cur dur
    by_cases h : c = cur
    · rw [parseSignalStatesAux, if_pos h, ih, List.replicate_succ' dur cur]
      subst h
      simp
    · rw [parseSignalStatesAux, if_neg h, serializeSignalStates]
      simp only [ih c 1, List.replicate_one, List.singleton_append]

/-- The codec round-trip on a non-empty character sequence. -/
lemma serialize_parseSignalStates {s : List Char} (h : s ≠ []) :
    serializeSignalStates (parseSignalStates s) = some s := by
  cases s with
  | nil => exact absurd rfl h
  | cons c rest =>
    rw [parseSignalStates, serialize_parseSignalStatesAux, List.replicate_one,
      List.singleton_append]

/-! ## Character-class facts -/

lemma ws_cases {c : Char} (h : isWS c = true) :
    c = ' ' ∨ c = '\t' ∨ c = '\n' ∨ c = '\r' ∨ c = '\x0b' ∨ c = '\x0c' := by
  have h2 := h
  simp [isWS] at h2
  tauto

lemma stateChar_cases {c : Char} (h : isStateChar c = true) :
    c = '0' ∨ c = '1' ∨ c = 'X' ∨ c = 'Z' := by
  have h2 := h
  simp [isStateChar] at h2
  tauto

lemma not_ws_of_nameStart {c : Char} (h : isNameStart c = true) : isWS c = false := by
  cases hws : isWS c
  · rfl
  · rcases ws_cases hws with h2 | h2 | h2 | h2 | h2 | h2 <;> subst h2 <;>
      exact absurd h (by decide)

lemma not_ws_of_wordChar {c : Char} (h : isWordChar c = true) : isWS c = false := by
  cases hws : isWS c
  · rfl
  · rcases ws_cases hws with h2 | h2 | h2 | h2 | h2 | h2 <;> subst h2 <;>
      exact absurd h (by decide)

lemma nameStart_facts {c : Char} (h : isNameStart c = true) :
    c ≠ '#' ∧ c ≠ '@' ∧ c ≠ '\n' :=
  ⟨fun he => absurd (he ▸ h) (by decide), fun he => absurd (he ▸ h) (by decide),
    fun he => absurd (he ▸ h) (by decide)⟩

lemma wordChar_ne_nl {c : Char} (h : isWordChar c = true) : c ≠ '\n' :=
  fun he => absurd (he ▸ h) (by decide)

lemma stateChar_facts {c : Char} (h : isStateChar c = true) :
    isWS c = false ∧ c ≠ '\n' ∧ c ≠ '\"' := by
  rcases stateChar_cases h with h2 | h2 | h2 | h2 <;> subst h2 <;>
    exact ⟨by decide, by decide, by decide⟩

lemma digitToChar_facts {k : Nat} (hk : k < 10) :
    isWS (digitToChar k) = false ∧ digitToChar k ≠ '\n' := by
  interval_cases k <;> exact ⟨by decide, by decide⟩

lemma natToChars_no_nl (n : Nat) : ∀ c ∈ natToChars n, c ≠ '\n' := by
  induction n using Nat.strong_induction_on with
  | _ n ih =>
    rw [natToChars]
    split
    · intro c hc
      rw [List.mem_singleton] at hc
      subst hc
      exact (digitToChar_facts (by omega)).2
    · intro c hc
      rcases List.mem_append.1 hc with h | h
      · exact ih (n / 10) (Nat.div_lt_self (by omega) (by omega)) c h
      · rw [List.mem_singleton] at h
        subst h
        exact (digitToChar_facts (Nat.mod_lt n (by omega))).2

/-! ## Maximal-munch helpers -/

lemma takeWhile_all {p : Char → Bool} {xs : List Char} (h : ∀ x ∈ xs, p x = true) :
    xs.takeWhile p = xs := by
  induction xs with
  | nil => rfl
  | cons x xs ih =>
    rw [List.takeWhile_cons, if_pos (h x (List.mem_cons_self _ _)),
      ih fun a ha => h a (List.mem_cons_of_mem _ ha)]

lemma takeWhile_stop {p : Char → Bool} {xs : List Char} (h : ∀ x ∈ xs, p x = true)
    {y : Char} (hy : p y = false) (rest : List Char) :
    (xs ++ y :: rest).takeWhile p = xs := by
  rw [List.takeWhile_append_of_pos h, List.takeWhile_cons, if_neg (by simp [hy])]
  simp

lemma dropWhile_stop {p : Char → Bool} {xs : List Char} (h : ∀ x ∈ xs, p x = true)
    {y : Char} (hy : p y = false) (rest : List Char) :
    (xs ++ y :: rest).dropWhile p = y :: rest := by
  rw [List.dropWhile_append_of_pos h, List.dropWhile_cons, if_neg (by simp [hy])]

/-! ## Trimming -/

lemma dropWhile_eq_self_of_head {l : List Char}
    (h : ∀ c, l.head? = some c → isWS c = false) : l.dropWhile isWS = l := by
  cases l with
  | nil => rfl
  | cons c rest => rw [List.dropWhile_cons, if_neg (by simp [h c rfl])]

lemma rstrip_eq_self {l : List Char}
    (h : ∀ c, l.getLast? = some c → isWS c = false) : rstrip l = l := by
  unfold rstrip
  rw [dropWhile_eq_self_of_head, List.reverse_reverse]
  intro c hc
  rw [List.head?_reverse] at hc
  exact h c hc

lemma trim_eq_self {l : List Char}
    (hh : ∀ c, l.head? = some c → isWS c = false)
    (hl : ∀ c, l.getLast? = some c → isWS c = false) : trim l = l := by
  unfold trim
  rw [dropWhile_eq_self_of_head hh, rstrip_eq_self hl]

lemma trim_cons_of_not_ws {c : Char} (l : List Char) (h : isWS c = false) :
    ∃ t, trim (c :: l) = c :: t := by
  unfold trim
  rw [List.dropWhile_cons, if_neg (by simp [h])]
  unfold rstrip
  rw [List.reverse_cons, List.dropWhile_append]
  split
  · exact ⟨[], by rw [List.dropWhile_cons, if_neg (by simp [h])]; rfl⟩
  · exact ⟨_, by rw [List.reverse_append]; rfl⟩

/-! ## Soundness of the matchers -/

lemma descMatch_sound {l d : List Char} (h : descMatch l = some d) :
    d ≠ [] ∧ ∀ c ∈ d, c ≠ '\"' ∧ c ∈ l := by
  simp only [descMatch] at h
  split at h
  · cases h
  · split at h
    next q r2 heq =>
      split at h
      · split at h
        · split at h
          · split at h
            · cases h
            · next hne =>
              injection h with h
              subst h
              refine ⟨by simpa using hne, ?_⟩
              intro c hc
              refine ⟨by simpa using List.mem_takeWhile_imp hc, ?_⟩
              have h1 : c ∈ r2 := (List.takeWhile_sublist _).subset hc
              have h2 : c ∈ l.dropWhile isWS := by
                rw [heq]; exact List.mem_cons_of_mem _ h1
              exact (List.dropWhile_sublist _).subset h2
          · cases h
        · cases h
      · cases h
    next heq => cases h

lemma directiveMatch_sound {l : List Char} {n v : List Char}
    (h : directiveMatch l = some (n, v)) : v ≠ [] ∧ ('\n' : Char) ∉ v := by
  simp only [directiveMatch] at h
  split at h
  next a rest =>
    split at h
    · split at h
      · cases h
      · split at h
        next b r2 heq =>
          split at h
          · split at h
            · cases h
            · next hcond =>
              injection h with h
              rw [Prod.mk.injEq] at h
              obtain ⟨h1, h2⟩ := h
              subst h2
              rw [Bool.or_eq_true, not_or] at hcond
              obtain ⟨hc1, hc2⟩ := hcond
              refine ⟨by simpa using hc1, ?_⟩
              intro hmem
              apply hc2
              simp only [List.any_eq_true]
              exact ⟨'\n', hmem, by decide⟩
          · cases h
        next heq => cases h
    · cases h
  next => cases h

lemma markerMatch_sound {v : List Char} {pos : Nat} {label : List Char}
    (h : markerMatch v = some (pos, label)) : ∀ c ∈ label, c ∈ v := by
  simp only [markerMatch] at h
  split at h
  · cases h
  · split at h
    next s heq =>
      injection h with h
      rw [Prod.mk.injEq] at h
      obtain ⟨h1, h2⟩ := h
      subst h2
      intro c hc
      have := (descMatch_sound heq).2 c hc
      exact (List.dropWhile_sublist _).subset this.2
    next => cases h

lemma signalLineMatch_sound {l name states : List Char} {dsc : Option (List Char)}
    (h : signalLineMatch l = some (name, states, dsc)) :
    goodNameB name = true ∧ states ≠ [] ∧ states.all isStateChar = true ∧
      ∀ d, dsc = some d → d ≠ [] ∧ ∀ c ∈ d, c ≠ '\"' ∧ c ∈ l := by
  simp only [signalLineMatch] at h
  split at h
  · cases h
  · next c rest =>
    split at h
    · next hstart =>
      split at h
      · next b r3 heq =>
        split at h
        · split at h
          · cases h
          · next hne =>
            have hname : goodNameB (c :: rest.takeWhile isWordChar) = true := by
              rw [goodNameB]
              simp only [Bool.and_eq_true]
              refine ⟨hstart, ?_⟩
              rw [List.all_eq_true]
              intro x hx
              exact List.mem_takeWhile_imp hx
            have hstates : ∀ st, st = ((r3.dropWhile isWS).takeWhile isStateChar) →
                st.all isStateChar = true := by
              intro st hst
              subst hst
              rw [List.all_eq_true]
              intro x hx
              exact List.mem_takeWhile_imp hx
            split at h
            · injection h with h
              rw [Prod.mk.injEq] at h
              obtain ⟨h1, h23⟩ := h
              rw [Prod.mk.injEq] at h23
              obtain ⟨h2, h3⟩ := h23
              subst h1; subst h2; subst h3
              exact ⟨hname, by simpa using hne, hstates _ rfl, by simp⟩
            · split at h
              · next d heqd =>
                injection h with h
                rw [Prod.mk.injEq] at h
                obtain ⟨h1, h23⟩ := h
                rw [Prod.mk.injEq] at h23
                obtain ⟨h2, h3⟩ := h23
                subst h1; subst h2; subst h3
                refine ⟨hname, by simpa using hne, hstates _ rfl, ?_⟩
                intro d2 hd2
                injection hd2 with hd2
                subst hd2
                obtain ⟨hd1, hd2⟩ := descMatch_sound heqd
                refine ⟨hd1, ?_⟩
                intro c2 hc2
                obtain ⟨hq, hmem⟩ := hd2 c2 hc2
                refine ⟨hq, ?_⟩
                have m1 : c2 ∈ r3 :=
                  (List.dropWhile_sublist _).subset ((List.dropWhile_sublist _).subset hmem)
                have m2 : c2 ∈ (rest.dropWhile isWordChar).dropWhile isWS := by
                  rw [heq]
                  exact List.mem_cons_of_mem _ m1
                have m3 : c2 ∈ rest :=
                  (List.dropWhile_sublist _).subset ((List.dropWhile_sublist _).subset m2)
                exact List.mem_cons_of_mem _ m3
              · cases h
        · cases h
      · cases h
    · cases h

/-! ## Projections of the parsed document -/

lemma buildDoc_signals (acc : ParseAcc) (now : Nat) :
    (buildDoc acc now).signals = acc.signals := by
  unfold buildDoc
  split <;> rfl

lemma buildDoc_totalSteps (acc : ParseAcc) (now : Nat) :
    (buildDoc acc now).timeConfig.totalSteps =
      if acc.signals.length > 0 then maxSignalLength acc.signals else 8 := by
  unfold buildDoc
  split <;> simp_all [createDocument]

lemma buildDoc_title (acc : ParseAcc) (now : Nat) :
    (buildDoc acc now).metadata.title = acc.title := by
  unfold buildDoc
  split <;> rfl

lemma buildDoc_description (acc : ParseAcc) (now : Nat) :
    (buildDoc acc now).metadata.description = none := by
  unfold buildDoc
  split <;> rfl

lemma buildDoc_unit (acc : ParseAcc) (now : Nat) :
    (buildDoc acc now).timeConfig.unit = parsedUnit acc.unit := by
  unfold buildDoc
  split <;> rfl

lemma buildDoc_markers (acc : ParseAcc) (now : Nat) :
    (buildDoc acc now).timeConfig.markers = parsedMarkers acc.markers := by
  unfold buildDoc
  split <;> rfl

lemma maxSignalLength_eq_foldl (s : Signal) (rest : List Signal) :
    maxSignalLength (s :: rest) = ((s :: rest).map signalLength).foldl Nat.max 0 := by
  rw [maxSignalLength, List.map_cons, List.foldl_cons, List.foldl_map]
  have h0 : Nat.max 0 (signalLength s) = signalLength s := by
    simp [Nat.max_def]
  rw [h0]

/-! ## Structure of the encoder's output -/

lemma parseSignalStatesAux_head :
    ∀ (rest : List Char) (cur : Char) (dur : Nat),
      ∃ d tl, parseSignalStatesAux cur dur rest = ⟨some cur, d⟩ :: tl := by
  intro rest
  induction rest with
  | nil => exact fun cur dur => ⟨dur, [], rfl⟩
  | cons c rest ih =>
    intro cur dur
    by_cases h : c = cur
    · rw [parseSignalStatesAux, if_pos h]
      exact ih cur (dur + 1)
    · exact ⟨dur, _, by rw [parseSignalStatesAux, if_neg h]⟩

lemma parseSignalStatesAux_chain :
    ∀ (rest : List Char) (cur : Char) (dur : Nat),
      List.Chain' (fun a b : SignalState => a.value ≠ b.value)
        (parseSignalStatesAux cur dur rest) := by
  intro rest
  induction rest with
  | nil =>
    intro cur dur
    simp [parseSignalStatesAux]
  | cons c rest ih =>
    intro cur dur
    by_cases h : c = cur
    · rw [parseSignalStatesAux, if_pos h]
      exact ih cur (dur + 1)
    · rw [parseSignalStatesAux, if_neg h]
      obtain ⟨d, tl, htl⟩ := parseSignalStatesAux_head rest c 1
      rw [htl]
      refine List.chain'_cons.2 ⟨?_, htl ▸ ih c 1⟩
      simp
      exact fun hq => h hq.symm

lemma parseSignalStatesAux_duration :
    ∀ (rest : List Char) (cur : Char) (dur : Nat), 1 ≤ dur →
      ∀ st ∈ parseSignalStatesAux cur dur rest, 1 ≤ st.duration := by
  intro rest
  induction rest with
  | nil =>
    intro cur dur hdur st hst
    rw [parseSignalStatesAux] at hst
    simp at hst
    simp [hst, hdur]
  | cons c rest ih =>
    intro cur dur hdur st hst
    by_cases h : c = cur
    · rw [parseSignalStatesAux, if_pos h] at hst
      exact ih cur (dur + 1) (by omega) st hst
    · rw [parseSignalStatesAux, if_neg h] at hst
      rcases List.mem_cons.1 hst with h2 | h2
      · simp [h2, hdur]
      · exact ih c 1 (by omega) st h2

/-- Maximal compression of any encoder output: adjacent runs differ and
every duration is at least 1. -/
lemma parseSignalStates_compressed (s : List Char) :
    List.Chain' (fun a b : SignalState => a.value ≠ b.value) (parseSignalStates s) ∧
      ∀ st ∈ parseSignalStates s, 1 ≤ st.duration := by
  cases s with
  | nil => refine ⟨by simp [parseSignalStates], ?_⟩; intro st hst; simp [parseSignalStates] at hst; simp [hst]
  | cons c rest =>
    exact ⟨parseSignalStatesAux_chain rest c 1,
      parseSignalStatesAux_duration rest c 1 (by omega)⟩

/-! ## The shape of the parser's per-line step -/

lemma attachDescription_states (s : Signal) (dsc : Option (List Char)) :
    (attachDescription s dsc).states = s.states := by
  unfold attachDescription
  split
  · split <;> rfl
  · rfl

lemma handleDirective_signals (acc : ParseAcc) (l : List Char) :
    (handleDirective acc l).signals = acc.signals := by
  unfold handleDirective
  split
  · rfl
  · split
    · rfl
    · split
      · rfl
      · split
        · split <;> rfl
        · rfl

lemma handleDirective_nextId (acc : ParseAcc) (l : List Char) :
    (handleDirective acc l).nextId = acc.nextId := by
  unfold handleDirective
  split
  · rfl
  · split
    · rfl
    · split
      · rfl
      · split
        · split <;> rfl
        · rfl

/-- Each line either leaves the signal list alone or appends exactly the
signal constructed from a successful signal-regex match of the trimmed
line. -/
lemma processLine_signals_cases (acc : ParseAcc) (raw : List Char) :
    (processLine acc raw).signals = acc.signals ∨
    ∃ name states dsc, signalLineMatch (trim raw) = some (name, states, dsc) ∧
      (processLine acc raw).signals =
        acc.signals ++ [attachDescription (createSignal acc.nextId name states) dsc] := by
  simp only [processLine]
  split
  · exact Or.inl rfl
  · split
    · exact Or.inl rfl
    · split
      · exact Or.inl (handleDirective_signals acc _)
      · split
        · next name states dsc heq => exact Or.inr ⟨name, states, dsc, heq, rfl⟩
        · exact Or.inl rfl

/-- The compression invariant survives the whole line fold. -/
lemma foldl_processLine_compressed :
    ∀ (ls : List (List Char)) (acc : ParseAcc),
      (∀ s ∈ acc.signals,
        List.Chain' (fun a b : SignalState => a.value ≠ b.value) s.states ∧
          ∀ st ∈ s.states, 1 ≤ st.duration) →
      ∀ s ∈ (ls.foldl processLine acc).signals,
        List.Chain' (fun a b : SignalState => a.value ≠ b.value) s.states ∧
          ∀ st ∈ s.states, 1 ≤ st.duration := by
  intro ls
  induction ls with
  | nil => exact fun acc h => h
  | cons l ls ih =>
    intro acc h
    refine ih (processLine acc l) ?_
    intro s2 hs2
    rcases processLine_signals_cases acc l with hc | ⟨name, states, dsc, _, hc⟩
    · exact h s2 (hc ▸ hs2)
    · rw [hc] at hs2
      rcases List.mem_append.1 hs2 with h2 | h2
      · exact h s2 h2
      · have he : s2 = attachDescription (createSignal acc.nextId name states) dsc :=
          List.mem_singleton.1 h2
        subst he
        rw [attachDescription_states]
        unfold createSignal
        simp only
        split
        · exact ⟨by simp, by simp⟩
        · exact parseSignalStates_compressed states

lemma attachDescription_name (s : Signal) (dsc : Option (List Char)) :
    (attachDescription s dsc).name = s.name := by
  unfold attachDescription
  split
  · split <;> rfl
  · rfl

lemma createSignal_states_of_ne_nil {states : List Char} (h : states ≠ [])
    (id : Nat) (name : List Char) :
    (createSignal id name states).states = parseSignalStates states := by
  unfold createSignal
  simp [List.isEmpty_iff, h]

/-! ## The accumulator invariant survives every line -/

lemma handleDirective_goodAcc (acc : ParseAcc) (l : List Char) (h : GoodAcc acc) :
    GoodAcc (handleDirective acc l) := by
  obtain ⟨ht, hu, hm, hs⟩ := h
  unfold handleDirective
  split
  · exact ⟨ht, hu, hm, hs⟩
  · next n v heq =>
    obtain ⟨_, hv2⟩ := directiveMatch_sound heq
    split
    · exact ⟨hv2, hu, hm, hs⟩
    · split
      · refine ⟨ht, ?_, hm, hs⟩
        intro u hu2
        injection hu2 with hu2
        subst hu2
        exact hv2
      · split
        · split
          · next pos label heqm =>
            refine ⟨ht, hu, ?_, hs⟩
            intro mk hmk
            rcases List.mem_append.1 hmk with h2 | h2
            · exact hm mk h2
            · rw [List.mem_singleton] at h2
              subst h2
              intro hnl
              exact hv2 (markerMatch_sound heqm '\n' hnl)
          · exact ⟨ht, hu, hm, hs⟩
        · exact ⟨ht, hu, hm, hs⟩

lemma processLine_goodAcc (acc : ParseAcc) (raw : List Char)
    (hraw : ('\n' : Char) ∉ raw) (h : GoodAcc acc) : GoodAcc (processLine acc raw) := by
  simp only [processLine]
  split
  · exact h
  · split
    · exact h
    · split
      · exact handleDirective_goodAcc acc _ h
      · split
        · next name states dsc heq =>
          obtain ⟨ht, hu, hm, hs⟩ := h
          obtain ⟨hn, hst, hall, hd⟩ := signalLineMatch_sound heq
          refine ⟨ht, hu, hm, ?_⟩
          intro s2 hs2
          rcases List.mem_append.1 hs2 with h2 | h2
          · exact hs s2 h2
          · rw [List.mem_singleton] at h2
            subst h2
            have hstates : (createSignal acc.nextId name states).states
                = parseSignalStates states := createSignal_states_of_ne_nil hst _ _
            have hmemtrim : ∀ c ∈ trim raw, c ≠ '\n' :=
              fun c hc he => hraw (he ▸ mem_trim hc)
            rcases dsc with _ | d
            · refine ⟨by rw [attachDescription_name]; exact hn,
                ⟨states, hst, hall, by rw [attachDescription_states, hstates]⟩, ?_⟩
              intro d2 hd2
              cases hd2
            · obtain ⟨hdne, hdmem⟩ := hd d rfl
              refine ⟨by rw [attachDescription_name]; exact hn,
                ⟨states, hst, hall, by rw [attachDescription_states, hstates]⟩, ?_⟩
              intro d2 heqd
              unfold attachDescription at heqd
              dsimp only at heqd
              rw [if_neg (by simp [List.isEmpty_iff, hdne])] at heqd
              injection heqd with heqd
              subst heqd
              refine ⟨hdne, ?_⟩
              intro c hc
              obtain ⟨hq, hmem⟩ := hdmem c hc
              exact ⟨hq, hmemtrim c hmem⟩
        · exact h

lemma foldl_processLine_goodAcc :
    ∀ (ls : List (List Char)) (acc : ParseAcc),
      (∀ l ∈ ls, ('\n' : Char) ∉ l) → GoodAcc acc →
        GoodAcc (ls.foldl processLine acc) := by
  intro ls
  induction ls with
  | nil => exact fun acc _ h => h
  | cons l ls ih =>
    intro acc hls h
    exact ih (processLine acc l) (fun x hx => hls x (List.mem_cons_of_mem _ hx))
      (processLine_goodAcc acc l (hls l (List.mem_cons_self _ _)) h)

lemma parseAcc_goodAcc (text : List Char) : GoodAcc (parseAcc text) := by
  unfold parseAcc
  refine foldl_processLine_goodAcc _ _ (fun l hl => mem_splitOnNl_no_nl text l hl) ?_
  refine ⟨by decide, ?_, ?_, ?_⟩
  · intro u hu
    cases hu
  · intro mk hmk
    simp [initAcc] at hmk
  · intro s hs
    simp [initAcc] at hs

/-! ## Per-line signal views -/

lemma attachDescription_descOpt (s : Signal) (hs : s.description = none)
    (dsc : Option (List Char)) : (attachDescription s dsc).description = descOpt dsc := by
  rcases dsc with _ | d
  · exact hs
  · by_cases hde : d.isEmpty
    · simp [attachDescription, descOpt, hde, hs]
    · simp [attachDescription, descOpt, hde]

lemma processLine_views (acc : ParseAcc) (raw : List Char) :
    ((processLine acc raw).signals).map sigView = acc.signals.map sigView ++ lineView raw := by
  simp only [processLine, lineView]
  split
  · simp
  · split
    · simp
    · split
      · rw [handleDirective_signals]
        simp
      · split
        · next name states dsc heq =>
          obtain ⟨_, hst, _, _⟩ := signalLineMatch_sound heq
          rw [List.map_append]
          simp only [List.map_cons, List.map_nil]
          congr 1
          rw [sigView, attachDescription_name, attachDescription_states,
            createSignal_states_of_ne_nil hst,
            attachDescription_descOpt _ (by rfl)]
          rfl
        · simp

lemma foldl_processLine_views :
    ∀ (ls : List (List Char)) (acc : ParseAcc),
      ((ls.foldl processLine acc).signals).map sigView =
        acc.signals.map sigView ++ (ls.map lineView).flatten := by
  intro ls
  induction ls with
  | nil => intro acc; simp
  | cons l ls ih =>
    intro acc
    rw [List.foldl_cons, ih, processLine_views]
    simp [List.append_assoc]

lemma parse_views (text : List Char) (now : Nat) :
    ((parse text now).signals).map sigView = ((splitOnNl text).map lineView).flatten := by
  rw [parse, buildDoc_signals]
  unfold parseAcc
  rw [foldl_processLine_views]
  simp [initAcc]

/-! ## Splitting is a left inverse of joining -/

lemma splitOnNl_joinNl :
    ∀ (ls : List (List Char)), ls ≠ [] → (∀ l ∈ ls, ('\n' : Char) ∉ l) →
      splitOnNl (joinNl ls) = ls := by
  intro ls
  induction ls with
  | nil => exact fun h => absurd rfl h
  | cons l ls ih =>
    intro _ hnl
    cases ls with
    | nil =>
      have hj : joinNl [l] = l := rfl
      rw [hj]
      exact splitOnNl_of_no_nl l (hnl l (List.mem_cons_self _ _))
    | cons l2 ls2 =>
      have hj : joinNl (l :: l2 :: ls2) = l ++ '\n' :: joinNl (l2 :: ls2) := rfl
      rw [hj, splitOnNl_append, splitOnNl_of_no_nl l (hnl l (List.mem_cons_self _ _)),
        ih (by simp) (fun x hx => hnl x (List.mem_cons_of_mem _ hx))]
      rfl

/-! ## Re-parsing a serialized signal line -/

lemma dropWhile_all {p : Char → Bool} {xs : List Char} (h : ∀ x ∈ xs, p x = true) :
    xs.dropWhile p = [] := by
  induction xs with
  | nil => rfl
  | cons x xs ih =>
    rw [List.dropWhile_cons, if_pos (h x (List.mem_cons_self _ _)),
      ih fun a ha => h a (List.mem_cons_of_mem _ ha)]

lemma descMatch_emit (d : List Char) (hd : d ≠ []) (hq : ∀ c ∈ d, c ≠ '\"') :
    descMatch (' ' :: '\"' :: (d ++ ['\"'])) = some d := by
  have hqb : ∀ c ∈ d, (c != '\"') = true := by
    intro c hc
    simpa using hq c hc
  have h1 : ((' ' :: '\"' :: (d ++ ['\"'])).takeWhile isWS) = [' '] := by
    rw [List.takeWhile_cons, if_pos (by decide), List.takeWhile_cons, if_neg (by decide)]
  have h2 : ((' ' :: '\"' :: (d ++ ['\"'])).dropWhile isWS) = '\"' :: (d ++ ['\"']) := by
    rw [List.dropWhile_cons, if_pos (by decide), List.dropWhile_cons, if_neg (by decide)]
  have h3 : (d ++ ['\"']).dropWhile (fun c => c != '\"') = ['\"'] :=
    dropWhile_stop hqb (by decide) []
  have h4 : (d ++ ['\"']).takeWhile (fun c => c != '\"') = d :=
    takeWhile_stop hqb (by decide) []
  simp only [descMatch, h1, h2, h3, h4]
  simp [List.isEmpty_iff, hd]

lemma signalLineMatch_emit (name ds : List Char) (dsc : Option (List Char))
    (hn : goodNameB name = true) (hds : ds ≠ []) (hall : ds.all isStateChar = true)
    (hdsc : ∀ d, dsc = some d → d ≠ [] ∧ ∀ c ∈ d, c ≠ '\"') :
    signalLineMatch (name ++ ':' :: ' ' :: (ds ++ descPart dsc)) = some (name, ds, dsc) := by
  rcases name with _ | ⟨c, cs⟩
  · simp [goodNameB] at hn
  rw [goodNameB] at hn
  simp only [Bool.and_eq_true, List.all_eq_true] at hn
  obtain ⟨hc, hcs⟩ := hn
  rcases ds with _ | ⟨d0, ds'⟩
  · exact absurd rfl hds
  have hallm : ∀ x ∈ d0 :: ds', isStateChar x = true := List.all_eq_true.1 hall
  have hword : ∀ x ∈ cs, isWordChar x = true := hcs
  show signalLineMatch (c :: (cs ++ ':' :: ' ' :: ((d0 :: ds') ++ descPart dsc))) = _
  simp only [signalLineMatch]
  rw [if_pos hc, dropWhile_stop hword (by decide) _, List.dropWhile_cons,
    if_neg (by decide)]
  dsimp only
  rw [if_pos rfl]
  have hr4 : ((' ' :: ((d0 :: ds') ++ descPart dsc)).dropWhile isWS)
      = (d0 :: ds') ++ descPart dsc := by
    rw [List.dropWhile_cons, if_pos (by decide), List.cons_append, List.dropWhile_cons,
      if_neg (by simp [(stateChar_facts (hallm d0 (List.mem_cons_self _ _))).1])]
  rw [hr4]
  rcases dsc with _ | d
  · have hdp : descPart none = [] := rfl
    rw [hdp, List.append_nil, takeWhile_all hallm, dropWhile_all hallm,
      if_neg (by simp)]
    simp only [List.isEmpty_nil, if_pos]
    exact congrArg (fun nm => some (c :: nm, d0 :: ds', none))
      (takeWhile_stop hword (by decide) _)
  · obtain ⟨hd1, hd2⟩ := hdsc d rfl
    have hdp : descPart (some d) = ' ' :: '\"' :: (d ++ ['\"']) := by
      rw [descPart, if_neg (by simp [List.isEmpty_iff, hd1])]
    rw [hdp, takeWhile_stop hallm (by decide) _, dropWhile_stop hallm (by decide) _,
      if_neg (by simp), if_neg (by simp), descMatch_emit d hd1 hd2]
    exact congrArg (fun nm => some (c :: nm, d0 :: ds', some d))
      (takeWhile_stop hword (by decide) _)

lemma goodNameB_no_nl {name : List Char} (h : goodNameB name = true) :
    ('\n' : Char) ∉ name := by
  rcases name with _ | ⟨c, cs⟩
  · simp
  · rw [goodNameB] at h
    simp only [Bool.and_eq_true, List.all_eq_true] at h
    obtain ⟨hc, hcs⟩ := h
    intro hmem
    rcases List.mem_cons.1 hmem with h2 | h2
    · exact (nameStart_facts hc).2.2 h2.symm
    · exact wordChar_ne_nl (hcs _ h2) rfl

lemma states_no_nl {ds : List Char} (h : ds.all isStateChar = true) :
    ('\n' : Char) ∉ ds := by
  intro hmem
  exact (stateChar_facts (List.all_eq_true.1 h _ hmem)).2.1 rfl

/-- Every `ParsedSig` signal serializes to a newline-free line that the
line classifier reads back as exactly that signal's view. -/
lemma serializeSignal_good (s : Signal) (h : ParsedSig s) :
    ∃ line, serializeSignal s = some line ∧ ('\n' : Char) ∉ line ∧
      lineView line = [sigView s] := by
  obtain ⟨hn, ⟨ds, hds, hall, hstates⟩, hdesc⟩ := h
  have hround : serializeSignalStates s.states = some ds := by
    rw [hstates]
    exact serialize_parseSignalStates hds
  rcases hnm : s.name with _ | ⟨c, cs⟩
  · rw [hnm] at hn
    simp [goodNameB] at hn
  have hc : isNameStart c = true := by
    have h2 := hnm ▸ hn
    simp only [goodNameB, Bool.and_eq_true] at h2
    exact h2.1
  refine ⟨s.name ++ ':' :: ' ' :: (ds ++ descPart s.description), ?_, ?_, ?_⟩
  · rw [serializeSignal, hround]
    rfl
  · intro hmem
    simp only [List.mem_append, List.mem_cons] at hmem
    rcases hmem with h2 | h2 | h2 | h2
    · exact goodNameB_no_nl hn h2
    · cases h2
    · cases h2
    rcases h2 with h3 | h3
    · exact states_no_nl hall h3
    · rcases hd : s.description with _ | d
      · rw [hd] at h3
        simp [descPart] at h3
      · obtain ⟨hd1, hd2⟩ := hdesc d hd
        rw [hd, descPart, if_neg (by simp [List.isEmpty_iff, hd1])] at h3
        rcases List.mem_cons.1 h3 with h4 | h4
        · cases h4
        rcases List.mem_cons.1 h4 with h5 | h5
        · cases h5
        rcases List.mem_append.1 h5 with h6 | h6
        · exact (hd2 _ h6).2 rfl
        · rw [List.mem_singleton] at h6
          cases h6
  · have hhead : (s.name ++ ':' :: ' ' :: (ds ++ descPart s.description)).head? = some c := by
      rw [hnm]
      rfl
    have hlast : ∀ c2, (s.name ++ ':' :: ' ' :: (ds ++ descPart s.description)).getLast?
        = some c2 → isWS c2 = false := by
      intro c2 hc2
      rcases hd : s.description with _ | d
      · rw [hd] at hc2
        have hshape : s.name ++ ':' :: ' ' :: (ds ++ descPart none)
            = (s.name ++ [':', ' ']) ++ ds := by
          simp [descPart]
        rw [hshape, List.getLast?_append, List.getLast?_eq_getLast ds hds] at hc2
        simp only [Option.or_some] at hc2
        injection hc2 with hc2
        subst hc2
        exact (stateChar_facts (List.all_eq_true.1 hall _ (List.getLast_mem _))).1
      · obtain ⟨hd1, _⟩ := hdesc d hd
        rw [hd] at hc2
        have hshape : s.name ++ ':' :: ' ' :: (ds ++ descPart (some d))
            = (s.name ++ ':' :: ' ' :: (ds ++ ' ' :: '\"' :: d)) ++ ['\"'] := by
          rw [descPart, if_neg (by simp [List.isEmpty_iff, hd1])]
          simp
        rw [hshape, List.getLast?_concat] at hc2
        injection hc2 with hc2
        subst hc2
        decide
    have htrim : trim (s.name ++ ':' :: ' ' :: (ds ++ descPart s.description))
        = s.name ++ ':' :: ' ' :: (ds ++ descPart s.description) := by
      refine trim_eq_self ?_ hlast
      intro c2 hc2
      rw [hhead] at hc2
      injection hc2 with hc2
      subst hc2
      exact not_ws_of_nameStart hc
    have hmatch : signalLineMatch (s.name ++ ':' :: ' ' :: (ds ++ descPart s.description))
        = some (s.name, ds, s.description) := by
      refine signalLineMatch_emit s.name ds s.description hn hds hall ?_
      intro d hd
      obtain ⟨hd1, hd2⟩ := hdesc d hd
      exact ⟨hd1, fun c2 hc2 => (hd2 c2 hc2).1⟩
    simp only [lineView, htrim, hmatch]
    rw [if_neg (by rw [hnm]; simp), if_neg (by rw [hhead]; simp [(nameStart_facts hc).1]),
      if_neg (by rw [hhead]; simp [(nameStart_facts hc).2.1])]
    have hdescOpt : descOpt s.description = s.description := by
      rcases hd : s.description with _ | d
      · rfl
      · rw [descOpt, if_neg (by simp [List.isEmpty_iff, (hdesc d hd).1])]
    rw [hdescOpt, sigView, hround, serialize_parseSignalStates hds]

/-! ## Skipping a malformed line is the identity -/

lemma processLine_malformed (acc : ParseAcc) (l : List Char)
    (h : malformedLine l = true) : processLine acc l = acc := by
  unfold malformedLine at h
  simp only [Bool.and_eq_true, Bool.or_eq_true, Bool.not_eq_true', beq_iff_eq,
    beq_eq_false_iff_ne, ne_eq, Option.isNone_iff_eq_none] at h
  obtain ⟨⟨hne, hnc⟩, hcase⟩ := h
  simp only [processLine]
  rw [if_neg (by simp [hne]), if_neg (by simp [hnc])]
  rcases hcase with ⟨hat, hdir⟩ | ⟨hnat, hsig⟩
  · rw [if_pos (by simp [hat])]
    rcases hdm : directiveMatch (trim l) with _ | ⟨n, v⟩
    · unfold handleDirective
      rw [hdm]
    · rw [hdm] at hdir
      simp only [beq_iff_eq, Bool.and_eq_true, Option.isNone_iff_eq_none] at hdir
      obtain ⟨hn, hmm⟩ := hdir
      unfold handleDirective
      rw [hdm]
      subst hn
      dsimp only
      rw [if_neg (by decide), if_neg (by decide), if_pos rfl, hmm]
  · rw [if_neg (by simp [hnat]), hsig]

/-! ## Assembling the text round-trip -/

lemma mapM_serializeSignal :
    ∀ (sigs : List Signal), (∀ s ∈ sigs, ParsedSig s) →
      ∃ lines, sigs.mapM serializeSignal = some lines ∧
        (∀ l ∈ lines, ('\n' : Char) ∉ l) ∧
        (lines.map lineView).flatten = sigs.map sigView := by
  intro sigs
  induction sigs with
  | nil => exact fun _ => ⟨[], by rw [List.mapM_nil]; rfl, by simp, by simp⟩
  | cons s rest ih =>
    intro h
    obtain ⟨line, h1, h2, h3⟩ := serializeSignal_good s (h s (List.mem_cons_self _ _))
    obtain ⟨lines, g1, g2, g3⟩ := ih (fun x hx => h x (List.mem_cons_of_mem _ hx))
    refine ⟨line :: lines, ?_, ?_, ?_⟩
    · rw [List.mapM_cons, h1, g1]
      rfl
    · intro l hl
      rcases List.mem_cons.1 hl with h4 | h4
      · subst h4
        exact h2
      · exact g2 l h4
    · simp [h3, g3]

lemma lineView_nil : lineView [] = [] := rfl

lemma lineView_at_line {raw : List Char} (h : raw.head? = some '@') : lineView raw = [] := by
  rcases raw with _ | ⟨c, rest⟩
  · cases h
  · rw [List.head?_cons] at h
    injection h with h
    subst h
    obtain ⟨t, ht⟩ := trim_cons_of_not_ws (c := '@') rest (by decide)
    simp only [lineView, ht, List.head?_cons]
    rw [if_neg (by simp), if_neg (by decide)]
    simp

lemma serializeMetaLines_props (doc : WaveformDocument)
    (ht : ('\n' : Char) ∉ doc.metadata.title)
    (hdd : ∀ d, doc.metadata.description = some d → ('\n' : Char) ∉ d)
    (hu : ∀ u, doc.timeConfig.unit = some u → ('\n' : Char) ∉ u)
    (hmk : ∀ ms, doc.timeConfig.markers = some ms → ∀ mk ∈ ms, ('\n' : Char) ∉ mk.label) :
    ∀ m ∈ serializeMetaLines doc, ('\n' : Char) ∉ m ∧ m.head? = some '@' := by
  intro m hm
  unfold serializeMetaLines at hm
  rcases List.mem_append.1 hm with h1 | h1
  · rcases List.mem_append.1 h1 with h2 | h2
    · rcases List.mem_append.1 h2 with h3 | h3
      · split at h3
        · rw [List.mem_singleton] at h3
          subst h3
          refine ⟨?_, rfl⟩
          intro hmem
          rcases List.mem_append.1 hmem with h4 | h4
          · exact absurd h4 (by decide)
          · exact ht h4
        · cases h3
      · split at h3
        · next d heq =>
          split at h3
          · cases h3
          · rw [List.mem_singleton] at h3
            subst h3
            refine ⟨?_, rfl⟩
            intro hmem
            rcases List.mem_append.1 hmem with h4 | h4
            · exact absurd h4 (by decide)
            · exact hdd d heq h4
        · cases h3
    · split at h2
      · next u heq =>
        split at h2
        · cases h2
        · rw [List.mem_singleton] at h2
          subst h2
          refine ⟨?_, rfl⟩
          intro hmem
          rcases List.mem_append.1 hmem with h4 | h4
          · exact absurd h4 (by decide)
          · exact hu u heq h4
      · cases h2
  · split at h1
    · next ms heq =>
      obtain ⟨mk, hmk2, hmeq⟩ := List.mem_map.1 h1
      subst hmeq
      refine ⟨?_, rfl⟩
      intro hmem
      rcases List.mem_append.1 hmem with h4 | h4
      · rcases List.mem_append.1 h4 with h5 | h5
        · exact absurd h5 (by decide)
        · exact natToChars_no_nl mk.position '\n' h5 rfl
      · rcases List.mem_cons.1 h4 with h6 | h6
        · cases h6
        rcases List.mem_cons.1 h6 with h7 | h7
        · cases h7
        rcases List.mem_append.1 h7 with h8 | h8
        · exact hmk ms heq mk hmk2 h8
        · rw [List.mem_singleton] at h8
          cases h8
    · cases h1

/-- C7: for every document producible by `parse` (the parse of any text),
`serialize` succeeds, and re-parsing the serialized text yields a document
with the same signal names in the same order, the same decoded state
string per signal, and the same per-signal descriptions (ids and
timestamps are fresh and not compared). -/
theorem parse_serialize_parse_roundtrip (text : List Char) (now now2 : Nat) :
    ∃ out, serialize (parse text now) = some out ∧
      ((parse out now2).signals.map sigView = (parse text now).signals.map sigView) := by
  obtain ⟨hT, hU, hM, hS⟩ := parseAcc_goodAcc text
  have hsig : ∀ s ∈ (parse text now).signals, ParsedSig s := by
    rw [parse, buildDoc_signals]
    exact hS
  obtain ⟨sigLines, hmapm, hsignl, hviews⟩ := mapM_serializeSignal _ hsig
  have hmeta : ∀ m ∈ serializeMetaLines (parse text now),
      ('\n' : Char) ∉ m ∧ m.head? = some '@' := by
    apply serializeMetaLines_props
    · rw [parse, buildDoc_title]
      exact hT
    · rw [parse, buildDoc_description]
      intro d hd
      cases hd
    · rw [parse, buildDoc_unit]
      intro u hu2
      unfold parsedUnit at hu2
      split at hu2
      · next u0 heq =>
        split at hu2
        · cases hu2
        · injection hu2 with hu2
          subst hu2
          exact hU u0 heq
      · cases hu2
    · rw [parse, buildDoc_markers]
      intro ms hms mk hmk2
      unfold parsedMarkers at hms
      split at hms
      · cases hms
      · injection hms with hms
        subst hms
        exact hM mk hmk2
  set ml := serializeMetaLines (parse text now) with hml
  set L := (if ml.isEmpty then ml else ml ++ [[]]) with hLdef
  have hserial : serialize (parse text now) = some (joinNl (L ++ sigLines)) := by
    rw [serialize, hmapm]
    rfl
  have hLprops : ∀ m ∈ L, ('\n' : Char) ∉ m ∧ lineView m = [] := by
    intro m hm
    rw [hLdef] at hm
    split at hm
    · exact ⟨(hmeta m hm).1, lineView_at_line (hmeta m hm).2⟩
    · rcases List.mem_append.1 hm with h1 | h1
      · exact ⟨(hmeta m h1).1, lineView_at_line (hmeta m h1).2⟩
      · rw [List.mem_singleton] at h1
        subst h1
        exact ⟨by simp, lineView_nil⟩
  have hallnl : ∀ l ∈ L ++ sigLines, ('\n' : Char) ∉ l := by
    intro l hl
    rcases List.mem_append.1 hl with h1 | h1
    · exact (hLprops l h1).1
    · exact hsignl l h1
  refine ⟨joinNl (L ++ sigLines), hserial, ?_⟩
  by_cases hLS : L ++ sigLines = []
  · have hsl : sigLines = [] := (List.append_eq_nil.1 hLS).2
    have h2 : (parse text now).signals.map sigView = [] := by
      rw [← hviews, hsl]
      rfl
    rw [hLS, parse_views, h2]
    rfl
  · have hLzero : (L.map lineView).flatten = [] := by
      rw [List.flatten_eq_nil_iff]
      intro l hl
      obtain ⟨m, hm, hmeq⟩ := List.mem_map.1 hl
      subst hmeq
      exact (hLprops m hm).2
    rw [parse_views, splitOnNl_joinNl (L ++ sigLines) hLS hallnl,
      List.map_append, List.flatten_append, hLzero, hviews]
    rfl

/-! ## Claim C1: totalSteps derivation -/

/-- C1 (counterexample): on input text with no signals, `parse` leaves
`totalSteps` at the `createDocument` default 8, not 0: the recomputation
is guarded by `signals.length > 0`. -/
theorem parse_empty_totalSteps_not_zero :
    (parse ([] : List Char) 0).signals = [] ∧
    (parse ([] : List Char) 0).timeConfig.totalSteps ≠ 0 := by
  decide

/-- C1 (amended): for every input text, the parsed document's
`timeConfig.totalSteps` is the maximum over its signals of the sum of run
durations when at least one signal was parsed, and the `createDocument`
default 8 (not 0) when the text yields no signals. -/
theorem parse_totalSteps (text : List Char) (now : Nat) :
    (parse text now).timeConfig.totalSteps =
      if (parse text now).signals = [] then 8
      else ((parse text now).signals.map signalLength).foldl Nat.max 0 := by
  unfold parse
  rw [buildDoc_totalSteps, buildDoc_signals]
  rcases h : (parseAcc text).signals with _ | ⟨s, rest⟩
  · simp
  · simp [maxSignalLength_eq_foldl]

/-! ## Claim C2: codec round-trip -/

/-- C2 (counterexample): the codec round-trip fails on the empty sequence:
`parseSignalStates` on `""` reads `stateString[0]` (= `undefined`) and
returns one bogus run, on which `serializeSignalStates` throws. -/
theorem codec_roundtrip_fails_on_empty :
    ¬ (serializeSignalStates (parseSignalStates ([] : List Char)) = some []) := by
  decide

/-- C2 (amended): for every non-empty finite sequence of SignalValue
characters, decoding the run list produced by encoding it yields the
sequence again: `serializeSignalStates (parseSignalStates s) = s`. -/
theorem codec_roundtrip_nonempty (s : List Char) (h1 : s ≠ [])
    (_h2 : ∀ c ∈ s, isStateChar c = true) :
    serializeSignalStates (parseSignalStates s) = some s :=
  serialize_parseSignalStates h1

/-- Witness for C2's amended round-trip at the concrete sequence `011`. -/
theorem codec_roundtrip_nonempty_witness :
    serializeSignalStates (parseSignalStates ['0', '1', '1']) = some ['0', '1', '1'] :=
  codec_roundtrip_nonempty ['0', '1', '1'] (by decide) (by decide)

/-! ## Claim C3: INVALID_STATE for `DATA: 01X20101` -/

/-- C3: `validate "DATA: 01X20101"` reports `INVALID_SIGNAL`, not
`INVALID_STATE`: the signal regex requires the whole states field to be
`[01XZ]+`, so a line containing `2` fails the regex outright and the
dedicated `INVALID_STATE` check (which only runs on regex captures that
are already `[01XZ]+`) is unreachable. -/
theorem validate_state_char_error_code :
    validate "DATA: 01X20101".data =
      { valid := false
        errors := [{ line := 1,
                     message := "Invalid signal syntax. Expected format: NAME: 01010101",
                     code := "INVALID_SIGNAL" }]
        warnings := [] } := by
  decide

/-! ## Claim C4: DUPLICATE_NAME -/

/-- C4: `validate "CLK: 0101\nCLK: 1010"` returns no error at all
(`valid = true`): the validator has no duplicate-name check — the only
name-indexed pass overwrites the length map entry in place. -/
theorem validate_duplicate_names_no_error :
    validate "CLK: 0101\nCLK: 1010".data =
      { valid := true, errors := [], warnings := [] } := by
  decide

/-! ## Claim C5: trailing comments on signal lines -/

/-- C5: no trailing-comment stripping exists: `"CLK: 0101  # clock"` is
not parsed as a signal (the parser yields no signal for it) and the
validator rejects the line as `INVALID_SIGNAL`. -/
theorem trailing_comment_signal_rejected :
    (parse "CLK: 0101  # clock".data 0).signals = [] ∧
    (validate "CLK: 0101  # clock".data).errors.map (fun e => e.code) = ["INVALID_SIGNAL"] := by
  decide

/-! ## Claim C6: encoder on empty input -/

/-- C6 (counterexample): `parseSignalStates` on the empty sequence does
not return the empty run list. -/
theorem parseSignalStates_empty_ne_nil :
    parseSignalStates ([] : List Char) ≠ ([] : List SignalState) := by
  decide

/-- C6 (amended): `parseSignalStates` on the empty sequence does not fail,
but returns a single run whose value is the `undefined` out-of-bounds read
of the first character and whose duration is 1 (an empty state string is
instead short-circuited upstream by `createSignal`'s truthiness check). -/
theorem parseSignalStates_empty_eq :
    parseSignalStates ([] : List Char) = [{ value := none, duration := 1 }] ∧
    (createSignal 1 ['A'] ([] : List Char)).states = [] := by
  decide

/-! ## Claim C8: compression invariant of parsed signals -/

/-- C8: for every input text and every signal in the parsed document, the
run list is maximally compressed: no two adjacent runs share a value and
every run has duration at least 1. -/
theorem parse_states_compressed (text : List Char) (now : Nat) (s : Signal)
    (hs : s ∈ (parse text now).signals) :
    List.Chain' (fun a b : SignalState => a.value ≠ b.value) s.states ∧
      ∀ st ∈ s.states, 1 ≤ st.duration := by
  rw [parse, buildDoc_signals] at hs
  unfold parseAcc at hs
  exact foldl_processLine_compressed (splitOnNl text) initAcc
    (by intro s2 hs2; simp [initAcc] at hs2) s hs

/-- Witness for C8 on the parse of `"CLK: 0011"`, whose single signal has
run list `[('0',2),('1',2)]`. -/
theorem parse_states_compressed_witness :
    List.Chain' (fun a b : SignalState => a.value ≠ b.value)
      (Signal.states ⟨1, ['C', 'L', 'K'], [⟨some '0', 2⟩, ⟨some '1', 2⟩], none⟩) ∧
    ∀ st ∈ Signal.states ⟨1, ['C', 'L', 'K'], [⟨some '0', 2⟩, ⟨some '1', 2⟩], none⟩,
      1 ≤ st.duration :=
  parse_states_compressed "CLK: 0011".data 0
    ⟨1, ['C', 'L', 'K'], [⟨some '0', 2⟩, ⟨some '1', 2⟩], none⟩ (by decide)

/-! ## Claim C9: the parser silently skips malformed lines -/

/-- C9: `parse` is a total function of the input text, and a malformed
signal or directive line contributes nothing at all: inserting such a line
anywhere in a text leaves the parsed document (signals, metadata, markers,
ids, totalSteps) exactly as if the line were absent, with every other line
of the text still parsed. -/
theorem parse_skips_malformed_line (t1 t2 l : List Char) (now : Nat)
    (h1 : malformedLine l = true) (h2 : ('\n' : Char) ∉ l) :
    parse (t1 ++ '\n' :: (l ++ '\n' :: t2)) now = parse (t1 ++ '\n' :: t2) now := by
  unfold parse parseAcc
  rw [splitOnNl_append t1 (l ++ '\n' :: t2), splitOnNl_append l t2,
    splitOnNl_append t1 t2, splitOnNl_of_no_nl l h2]
  rw [List.foldl_append, List.foldl_append, List.foldl_append]
  rw [List.foldl_cons, List.foldl_nil,
    processLine_malformed (List.foldl processLine initAcc (splitOnNl t1)) l h1]

/-- Witness for C9: the malformed line `garbage!` between two well-formed
signal lines changes nothing. -/
theorem parse_skips_malformed_line_witness :
    parse ("A: 01".data ++ '\n' :: ("garbage!".data ++ '\n' :: "B: 10".data)) 0 =
      parse ("A: 01".data ++ '\n' :: "B: 10".data) 0 :=
  parse_skips_malformed_line "A: 01".data "B: 10".data "garbage!".data 0
    (by decide) (by decide)

/-! ## Claim C10: mutation helpers and the created timestamp -/

/-- C10 (counterexample): `updateMetadata` spreads the updates object over
the metadata, so an updates object carrying a `created` key overwrites the
created timestamp. -/
theorem updateMetadata_overwrites_created :
    (updateMetadata (createDocument 0 0) { created := some 999 } 5).metadata.created ≠
      (createDocument 0 0).metadata.created := by
  decide

/-- C10 (amended): `addSignal`, `updateSignal`, `removeSignal` and
`updateTimeConfig` always preserve `metadata.created`; `updateMetadata`
preserves it whenever the updates object does not carry a `created` key. -/
theorem mutation_helpers_preserve_created (doc : WaveformDocument) (s : Signal)
    (sid : Nat) (su : SignalUpdates) (mu : MetadataUpdates) (tu : TimeConfigUpdates)
    (now : Nat) (h : mu.created = none) :
    (addSignal doc s now).metadata.created = doc.metadata.created ∧
    (updateSignal doc sid su now).metadata.created = doc.metadata.created ∧
    (removeSignal doc sid now).metadata.created = doc.metadata.created ∧
    (updateMetadata doc mu now).metadata.created = doc.metadata.created ∧
    (updateTimeConfig doc tu now).metadata.created = doc.metadata.created := by
  refine ⟨rfl, rfl, rfl, ?_, rfl⟩
  simp [updateMetadata, spreadMetadata, h]

/-- Witness for C10's amended statement at concrete inputs. -/
theorem mutation_helpers_preserve_created_witness :
    (addSignal (createDocument 3 0) (createSignal 1 ['A'] ['0', '1']) 7).metadata.created =
      (createDocument 3 0).metadata.created ∧
    (updateSignal (createDocument 3 0) 1 {} 7).metadata.created =
      (createDocument 3 0).metadata.created ∧
    (removeSignal (createDocument 3 0) 1 7).metadata.created =
      (createDocument 3 0).metadata.created ∧
    (updateMetadata (createDocument 3 0) {} 7).metadata.created =
      (createDocument 3 0).metadata.created ∧
    (updateTimeConfig (createDocument 3 0) {} 7).metadata.created =
      (createDocument 3 0).metadata.created :=
  mutation_helpers_preserve_created (createDocument 3 0)
    (createSignal 1 ['A'] ['0', '1']) 1 {} {} {} 7 rfl

end WaveformDraw
